import Mathlib

/-!
Verification of the `SimpleMemoryBank` component
(file `test-memory-bank/simple_memory_test.py`).

The embedding models Python strings as `List Char`, the in-memory dicts
`self.memories` and `self.sessions` as insertion-ordered association lists,
and the outbound generation call `model.generate_content` as an oracle
function `gen : List Char → Option (List Char)` mapping the prompt to
either `some text` (the value of `response.text`) or `none` (the call, or
the access to `response.text`, raised an exception).  Timestamps produced
by `datetime.now().isoformat()` are passed in as an explicit `now`
argument.  `json.loads` is modelled by the executable parser `json_loads`
below (integers only, no floats and no unicode escapes: no behaviour of
the component under scrutiny depends on those).  Python exceptions are
modelled with `Except PyErr`; the `try/except` blocks of the source are
the explicit `match` fallbacks in `extract_memories` / `search_memories`.
-/

/-- A parsed JSON value, the result type of the Python `json.loads` calls.
Numbers are modelled as integers. -/
inductive Json where
  | null
  | bool (b : Bool)
  | num (n : Int)
  | str (s : List Char)
  | arr (elems : List Json)
  | obj (fields : List (List Char × Json))

/-- The Python exception kinds that the local component can raise. -/
inductive PyErr where
  | typeError
  | keyError
  deriving DecidableEq

/-! ## Python string primitives (on `List Char`) -/

/-- Python `str.startswith`. -/
def startsWithL : List Char → List Char → Bool
  | [], _ => true
  | _ :: _, [] => false
  | p :: ps, c :: cs => p == c && startsWithL ps cs

/-- Whether `pat` occurs as a contiguous substring. -/
def hasSub (pat : List Char) : List Char → Bool
  | [] => startsWithL pat []
  | c :: cs => startsWithL pat (c :: cs) || hasSub pat cs

/-- One fuelled step structure for Python `str.replace`: scan left to
right, replace each non-overlapping occurrence of `old` by `rep`,
resuming after the replaced segment.  The fuel only bounds recursion
depth; `pyReplace` supplies enough fuel for the scan to finish. -/
def replaceFuel (old rep : List Char) : Nat → List Char → List Char
  | 0, l => l
  | _ + 1, [] => []
  | n + 1, c :: cs =>
    if startsWithL old (c :: cs) then
      rep ++ replaceFuel old rep n ((c :: cs).drop old.length)
    else
      c :: replaceFuel old rep n cs

/-- Python `str.replace old rep` (for non-empty `old`, the only use here). -/
def pyReplace (old rep l : List Char) : List Char :=
  replaceFuel old rep l.length l

/-- The whitespace characters removed by Python `str.strip`. -/
def isWs (c : Char) : Bool :=
  ([' ', '\t', '\n', '\r', Char.ofNat 11, Char.ofNat 12] : List Char).contains c

/-- Python `str.strip`: drop leading and trailing whitespace. -/
def trimL (l : List Char) : List Char :=
  ((l.dropWhile isWs).reverse.dropWhile isWs).reverse

/-! ## json.loads -/

/-- Whitespace skipped between JSON tokens. -/
def isJsonWs (c : Char) : Bool :=
  ([' ', '\t', '\n', '\r'] : List Char).contains c

/-- Skip inter-token whitespace. -/
def skipWs : List Char → List Char
  | [] => []
  | c :: cs => if isJsonWs c then skipWs cs else c :: cs

/-- Decode one JSON string escape character (unicode escapes
unsupported), via the escape table as an association list. -/
def escChar (e : Char) : Option Char :=
  (([('"', '"'), ('\\', '\\'), ('/', '/'), ('n', '\n'), ('t', '\t'), ('r', '\r'),
    ('b', Char.ofNat 8), ('f', Char.ofNat 12)] : List (Char × Char)).find?
      (fun kv => kv.1 == e)).map (fun kv => kv.2)

/-- Parse the body of a JSON string after the opening quote; returns the
decoded characters and the rest of the input after the closing quote. -/
def parseStringBody : Nat → List Char → Option (List Char × List Char)
  | 0, _ => none
  | _ + 1, [] => none
  | n + 1, c :: cs =>
    if c == '"' then some ([], cs)
    else if c == '\\' then
      match cs with
      | [] => none
      | e :: cs' =>
        match escChar e with
        | none => none
        | some d =>
          match parseStringBody n cs' with
          | none => none
          | some (s, r) => some (d :: s, r)
    else
      match parseStringBody n cs with
      | none => none
      | some (s, r) => some (c :: s, r)

/-- Longest digit prefix and the rest. -/
def takeDigits : List Char → List Char × List Char
  | [] => ([], [])
  | c :: cs =>
    if c.isDigit then
      let (ds, r) := takeDigits cs
      (c :: ds, r)
    else ([], c :: cs)

/-- Decimal digits to a natural number. -/
def digitsToNat (ds : List Char) : Nat :=
  ds.foldl (fun a c => a * 10 + (c.toNat - '0'.toNat)) 0

mutual

/-- Parse one JSON value from the input (leading whitespace allowed);
returns the value and the unconsumed rest. -/
def parseValue : Nat → List Char → Option (Json × List Char)
  | 0, _ => none
  | n + 1, input =>
    match skipWs input with
    | [] => none
    | c :: cs =>
      if c == 'n' then
        if startsWithL ['u', 'l', 'l'] cs then some (Json.null, cs.drop 3) else none
      else if c == 't' then
        if startsWithL ['r', 'u', 'e'] cs then some (Json.bool true, cs.drop 3) else none
      else if c == 'f' then
        if startsWithL ['a', 'l', 's', 'e'] cs then some (Json.bool false, cs.drop 4) else none
      else if c == '"' then
        match parseStringBody (n + 1) cs with
        | none => none
        | some (s, r) => some (Json.str s, r)
      else if c == '[' then
        match skipWs cs with
        | ']' :: r => some (Json.arr [], r)
        | other =>
          match parseElems n other with
          | none => none
          | some (es, r) => some (Json.arr es, r)
      else if c == '{' then
        match skipWs cs with
        | '}' :: r => some (Json.obj [], r)
        | other =>
          match parseMembers n other with
          | none => none
          | some (fs, r) => some (Json.obj fs, r)
      else if c == '-' then
        match takeDigits cs with
        | ([], _) => none
        | (ds, r) => some (Json.num (-(digitsToNat ds : Int)), r)
      else if c.isDigit then
        match takeDigits (c :: cs) with
        | ([], _) => none
        | (ds, r) => some (Json.num (digitsToNat ds), r)
      else none

/-- Parse a comma-separated list of values terminated by a closing bracket. -/
def parseElems : Nat → List Char → Option (List Json × List Char)
  | 0, _ => none
  | n + 1, input =>
    match parseValue n input with
    | none => none
    | some (v, r) =>
      match skipWs r with
      | ',' :: r' =>
        match parseElems n r' with
        | none => none
        | some (es, r'') => some (v :: es, r'')
      | ']' :: r' => some ([v], r')
      | _ => none

/-- Parse a comma-separated list of string-keyed members terminated by a
closing brace. -/
def parseMembers : Nat → List Char → Option (List (List Char × Json) × List Char)
  | 0, _ => none
  | n + 1, input =>
    match skipWs input with
    | '"' :: cs =>
      match parseStringBody (n + 1) cs with
      | none => none
      | some (k, r) =>
        match skipWs r with
        | ':' :: r' =>
          match parseValue n r' with
          | none => none
          | some (v, r'') =>
            match skipWs r'' with
            | ',' :: r3 =>
              match parseMembers n r3 with
              | none => none
              | some (fs, r4) => some ((k, v) :: fs, r4)
            | '}' :: r3 => some ([(k, v)], r3)
            | _ => none
        | _ => none
    | _ => none

end

/-- Model of Python `json.loads`: parse a full JSON document, requiring
only whitespace after the value. -/
def json_loads (l : List Char) : Option Json :=
  match parseValue (2 * l.length + 2) l with
  | none => none
  | some (v, rest) => if (skipWs rest).isEmpty then some v else none

/-! ## Serialization: json.dumps -/

/-- Escape a string for JSON output (quote and backslash). -/
def escapeJsonStr : List Char → List Char
  | [] => []
  | c :: cs =>
    if c == '"' || c == '\\' then '\\' :: c :: escapeJsonStr cs
    else c :: escapeJsonStr cs

/-- Decimal rendering of an integer. -/
def intToChars (n : Int) : List Char :=
  if n < 0 then '-' :: Nat.toDigits 10 n.natAbs else Nat.toDigits 10 n.natAbs

mutual

/-- Model of Python `json.dumps` on a parsed value (compact separators;
the `indent=2` pretty-printing of the source only changes whitespace
inside the prompt handed to the generation call, which no behaviour of
the component depends on). -/
def json_dumps : Json → List Char
  | Json.null => "null".data
  | Json.bool true => "true".data
  | Json.bool false => "false".data
  | Json.num n => intToChars n
  | Json.str s => '"' :: (escapeJsonStr s ++ ['"'])
  | Json.arr l => '[' :: (jsonDumpsElems l ++ [']'])
  | Json.obj fs => '{' :: (jsonDumpsMembers fs ++ ['}'])

/-- Comma-separated serialization of array elements. -/
def jsonDumpsElems : List Json → List Char
  | [] => []
  | [v] => json_dumps v
  | v :: vs => json_dumps v ++ (", ".data ++ jsonDumpsElems vs)

/-- Comma-separated serialization of object members. -/
def jsonDumpsMembers : List (List Char × Json) → List Char
  | [] => []
  | [(k, v)] => ('"' :: (escapeJsonStr k ++ ['"'])) ++ (": ".data ++ json_dumps v)
  | (k, v) :: fs =>
    ('"' :: (escapeJsonStr k ++ ['"'])) ++ (": ".data ++ json_dumps v)
      ++ (", ".data ++ jsonDumpsMembers fs)

end

mutual

/-- Approximation of the Python `str()` conversion applied by the
f-string `f"- \x7bfact\x7d"` in `get_memory_summary`.  Scalar values render as
Python renders them; containers render in JSON style (Python would use
repr quoting) — the summary text of containers is never inspected by any
claim. -/
def pyStrOfJson : Json → List Char
  | Json.null => "None".data
  | Json.bool true => "True".data
  | Json.bool false => "False".data
  | Json.num n => intToChars n
  | Json.str s => s
  | Json.arr l => '[' :: (pyStrElems l ++ [']'])
  | Json.obj fs => '{' :: (pyStrMembers fs ++ ['}'])

/-- Elementwise rendering for `pyStrOfJson`. -/
def pyStrElems : List Json → List Char
  | [] => []
  | [v] => pyStrOfJson v
  | v :: vs => pyStrOfJson v ++ (", ".data ++ pyStrElems vs)

/-- Memberwise rendering for `pyStrOfJson`. -/
def pyStrMembers : List (List Char × Json) → List Char
  | [] => []
  | [(k, v)] => k ++ (": ".data ++ pyStrOfJson v)
  | (k, v) :: fs => k ++ (": ".data ++ pyStrOfJson v) ++ (", ".data ++ pyStrMembers fs)

end

/-! ## The data model of SimpleMemoryBank -/

/-- One session message, as built by `add_session_message`: the dict
`\x7b'session_id': …, 'role': …, 'content': …, 'timestamp': …\x7d`. -/
structure Turn where
  session_id : List Char
  role : List Char
  content : List Char
  timestamp : List Char

/-- Lookup in an insertion-ordered dict (Python `d[k]` / `k in d`). -/
def dget? {α : Type} (k : List Char) : List (List Char × α) → Option α
  | [] => none
  | (k', v) :: rest => if k = k' then some v else dget? k rest

/-- Update in an insertion-ordered dict (Python `d[k] = v`): replace the
value of an existing key in place, or append a new key at the end. -/
def dset {α : Type} (k : List Char) (v : α) : List (List Char × α) → List (List Char × α)
  | [] => [(k, v)]
  | (k', v') :: rest => if k = k' then (k, v) :: rest else (k', v') :: dset k v rest

/-- The state of a `SimpleMemoryBank` object: `self.memories` maps a user
id to the list of stored fact dicts, `self.sessions` maps a user id to
the list of recorded turns. -/
structure SimpleMemoryBank where
  memories : List (List Char × List Json)
  sessions : List (List Char × List Turn)

/-- `add_session_message`: ensure the user has a turn list, then append
one message dict to it. -/
def add_session_message (bank : SimpleMemoryBank)
    (user_id session_id role content now : List Char) : SimpleMemoryBank :=
  let turns := (dget? user_id bank.sessions).getD []
  { bank with
    sessions := dset user_id (turns ++ [⟨session_id, role, content, now⟩]) bank.sessions }

/-- The session messages selected by `extract_memories`: the turns of the
user whose `session_id` field equals the argument ( `[]` for an unknown
user). -/
def session_turns (bank : SimpleMemoryBank) (user_id session_id : List Char) : List Turn :=
  ((dget? user_id bank.sessions).getD []).filter (fun m => m.session_id == session_id)

/-- The transcript `"\n".join(f"\x7bmsg['role']\x7d: \x7bmsg['content']\x7d" …)`. -/
def conversation_of (msgs : List Turn) : List Char :=
  List.intercalate ['\n'] (msgs.map (fun m => m.role ++ (": ".data ++ m.content)))

/-- Fixed head of the extraction prompt template. -/
def extraction_template_pre : List Char :=
  ("\n        Analyze this conversation and extract key facts, preferences, and important information about the user.\n        Focus on:\n        - Personal preferences\n        - Important facts about the user\n        - Context that would be useful to remember in future conversations\n        \n        Conversation:\n        ").data

/-- Fixed tail of the extraction prompt template. -/
def extraction_template_post : List Char :=
  ("\n        \n        Return the extracted information as a JSON list of memory objects, each with:\n        - \"fact\": the specific fact or preference\n        - \"context\": brief context about when/how this was mentioned\n        - \"importance\": score 1-10 of how important this is to remember\n        \n        Return only valid JSON, no other text.\n        ").data

/-- The extraction prompt submitted to the generation call. -/
def extract_prompt (bank : SimpleMemoryBank) (user_id session_id : List Char) : List Char :=
  extraction_template_pre
    ++ conversation_of (session_turns bank user_id session_id)
    ++ extraction_template_post

/-- Fixed head of the search prompt template. -/
def search_template_pre : List Char :=
  ("\n        Given this query: \"").data

/-- Fixed middle of the search prompt template. -/
def search_template_mid : List Char :=
  ("\"\n        \n        Find the most relevant memories from this list:\n        ").data

/-- Fixed tail of the search prompt template. -/
def search_template_post : List Char :=
  ("\n        \n        Return a JSON list of the most relevant memories (max 5), ordered by relevance.\n        Include the original memory objects with an additional \"relevance_score\" field (1-10).\n        \n        Return only valid JSON, no other text.\n        ").data

/-- The search prompt submitted to the generation call (interpolating the
query and the serialized current fact list of the user). -/
def search_prompt (query : List Char) (user_memories : List Json) : List Char :=
  search_template_pre ++ query ++ search_template_mid
    ++ ('[' :: (jsonDumpsElems user_memories ++ [']']))
    ++ search_template_post

/-- The code-fence stripping step of both methods:
`if text.startswith('` ``json'): text = text.replace('` ``json', '').replace('` ``', '').strip()`
(backticks spaced out in this comment only). -/
def strip_code_fence (t : List Char) : List Char :=
  if startsWithL ("```json".data) t then
    trimL (pyReplace ("```".data) [] (pyReplace ("```json".data) [] t))
  else t

/-- Python iteration over the parsed value (`for memory in extracted`):
a list yields its elements, a dict yields its keys (strings), a string
yields its characters (one-character strings); other scalars raise
`TypeError`. -/
def py_iter : Json → Option (List Json)
  | Json.arr l => some l
  | Json.obj fields => some (fields.map (fun kv => Json.str kv.1))
  | Json.str s => some (s.map (fun c => Json.str [c]))
  | _ => none

/-- The in-place stamping of one parsed item:
`memory['session_id'] = session_id; memory['extracted_at'] = …`. -/
def stamp (session_id now : List Char) (fields : List (List Char × Json)) : Json :=
  Json.obj (dset ("extracted_at".data) (Json.str now)
    (dset ("session_id".data) (Json.str session_id) fields))

/-- The storing loop of `extract_memories`: stamp each parsed item and
append it to the user fact list.  A non-dict item raises `TypeError` at
the first subscript assignment; appends made before the raise persist
(the bank threaded out alongside the error). -/
def store_loop (user_id session_id now : List Char) :
    List Json → SimpleMemoryBank → SimpleMemoryBank × Except PyErr (List Json)
  | [], bank => (bank, Except.ok [])
  | Json.obj fields :: rest, bank =>
    let stamped := stamp session_id now fields
    let cur := (dget? user_id bank.memories).getD []
    let bank' := { bank with memories := dset user_id (cur ++ [stamped]) bank.memories }
    (match store_loop user_id session_id now rest bank' with
     | (bank'', Except.ok stampedRest) => (bank'', Except.ok (stamped :: stampedRest))
     | (bank'', Except.error e) => (bank'', Except.error e))
  | _ :: _, bank => (bank, Except.error PyErr.typeError)

/-- `extract_memories(user_id, session_id)`.  The oracle `gen` stands for
`model.generate_content` (plus the `response.text` access): `none` means
that call raised.  The whole generate / parse / store block runs inside
`try`; any raise is caught and the method returns the empty list, keeping
whatever mutations already happened. -/
def extract_memories (gen : List Char → Option (List Char)) (bank : SimpleMemoryBank)
    (user_id session_id now : List Char) : Json × SimpleMemoryBank :=
  if (dget? user_id bank.sessions).isNone then (Json.arr [], bank)
  else
    let msgs := session_turns bank user_id session_id
    if msgs.isEmpty then (Json.arr [], bank)
    else
      match gen (extract_prompt bank user_id session_id) with
      | none => (Json.arr [], bank)
      | some rtext =>
        match json_loads (strip_code_fence (trimL rtext)) with
        | none => (Json.arr [], bank)
        | some extracted =>
          let bank1 :=
            if (dget? user_id bank.memories).isSome then bank
            else { bank with memories := dset user_id [] bank.memories }
          match py_iter extracted with
          | none => (Json.arr [], bank1)
          | some items =>
            match store_loop user_id session_id now items bank1 with
            | (bank2, Except.error _) => (Json.arr [], bank2)
            | (bank2, Except.ok stampedItems) =>
              match extracted with
              | Json.arr _ => (Json.arr stampedItems, bank2)
              | other => (other, bank2)

/-- `search_memories(user_id, query)`: ask the generation call to rank
the current fact list; on any raise (generation error or parse error)
fall back to the first three stored facts. -/
def search_memories (gen : List Char → Option (List Char)) (bank : SimpleMemoryBank)
    (user_id query : List Char) : Json × SimpleMemoryBank :=
  match dget? user_id bank.memories with
  | none => (Json.arr [], bank)
  | some user_memories =>
    if user_memories.isEmpty then (Json.arr [], bank)
    else
      match gen (search_prompt query user_memories) with
      | none => (Json.arr (user_memories.take 3), bank)
      | some rtext =>
        match json_loads (strip_code_fence (trimL rtext)) with
        | none => (Json.arr (user_memories.take 3), bank)
        | some relevant => (relevant, bank)

/-- Reading `memory['fact']` from one stored item: `KeyError` when the
key is absent, `TypeError` when the item is not a dict. -/
def fact_field : Json → Except PyErr Json
  | Json.obj fields =>
    (match dget? ("fact".data) fields with
     | some v => Except.ok v
     | none => Except.error PyErr.keyError)
  | _ => Except.error PyErr.typeError

/-- The list comprehension `[memory['fact'] for memory in memories]`:
read the facts left to right, propagating the first raise. -/
def collect_facts : List Json → Except PyErr (List Json)
  | [] => Except.ok []
  | m :: rest =>
    match fact_field m with
    | Except.error e => Except.error e
    | Except.ok v =>
      match collect_facts rest with
      | Except.error e => Except.error e
      | Except.ok vs => Except.ok (v :: vs)

/-- `get_memory_summary(user_id)`: the fixed no-memories message for an
unknown or empty user, otherwise a header line plus one line per fact.
This method has no `try`, so a missing `'fact'` key propagates. -/
def get_memory_summary (bank : SimpleMemoryBank) (user_id : List Char) :
    Except PyErr (List Char) :=
  match dget? user_id bank.memories with
  | none => Except.ok ("No memories found for this user.".data)
  | some memories =>
    if memories.isEmpty then Except.ok ("No memories found for this user.".data)
    else
      match collect_facts memories with
      | Except.error e => Except.error e
      | Except.ok facts =>
        Except.ok (("User has ".data) ++ Nat.toDigits 10 memories.length
          ++ (" stored memories:\n".data)
          ++ List.intercalate ['\n'] (facts.map (fun f => ("- ".data) ++ pyStrOfJson f)))

/-! ## Observers used by the claim statements -/

/-- Whether a Python value is a list. -/
def isArr : Json → Bool
  | Json.arr _ => true
  | _ => false

/-- Length of a Python list value (`0` on non-lists). -/
def arrLen : Json → Nat
  | Json.arr l => l.length
  | _ => 0

/-- Number of stored facts of a user. -/
def memLen (bank : SimpleMemoryBank) (user_id : List Char) : Nat :=
  ((dget? user_id bank.memories).getD []).length

/-- The first string of a parsed array, the discriminating observer of
the fence-stripping counterexample. -/
def first_str : Json → List Char
  | Json.arr (Json.str s :: _) => s
  | _ => []

/-! ## Concrete instances used by counterexamples and witnesses -/

/-- C1 counterexample oracle: the generation call answers with the text
of an empty JSON object. -/
def genC1 : List Char → Option (List Char) := fun _ => some ("\x7b\x7d".data)

/-- C1 counterexample state: one stored fact for user `u`. -/
def bankC1 : SimpleMemoryBank :=
  ⟨[("u".data, [Json.obj [("fact".data, Json.str ("a".data))]])], []⟩

/-- C2 counterexample oracle: a parsed list whose second item is the
number `5` (not a dict). -/
def genC2 : List Char → Option (List Char) :=
  fun _ => some ("[\x7b\"fact\": \"a\"\x7d, 5]".data)

/-- C2 counterexample state: no facts, one recorded turn in session `s1`. -/
def bankC2 : SimpleMemoryBank :=
  ⟨[], [("u".data, [⟨"s1".data, "user".data, "hi".data, "t0".data⟩])]⟩

/-- C2 witness oracle: the generation call raises. -/
def genC2W : List Char → Option (List Char) := fun _ => none

/-- C2 witness state: one recorded turn in session `s1`. -/
def bankC2W : SimpleMemoryBank :=
  ⟨[], [("u".data, [⟨"s1".data, "user".data, "hi".data, "t0".data⟩])]⟩

/-- C3 counterexample oracle: a well-formed list of six items. -/
def genC3 : List Char → Option (List Char) := fun _ => some ("[1, 2, 3, 4, 5, 6]".data)

/-- C3 counterexample state: a single stored fact. -/
def bankC3 : SimpleMemoryBank :=
  ⟨[("u".data, [Json.obj [("fact".data, Json.str ("a".data))]])], []⟩

/-- C4 witness oracle: a well-formed singleton list of fact dicts. -/
def genC4W : List Char → Option (List Char) :=
  fun _ => some ("[\x7b\"fact\": \"a\"\x7d]".data)

/-- C4 witness state: one recorded turn in session `s1`, no facts. -/
def bankC4W : SimpleMemoryBank :=
  ⟨[], [("u".data, [⟨"s1".data, "user".data, "hi".data, "t0".data⟩])]⟩

/-- The parsed items of the C4 witness generation output. -/
def itemsC4W : List Json := [Json.obj [("fact".data, Json.str ("a".data))]]

/-- C5 witness oracle: the generation call raises. -/
def genC5W : List Char → Option (List Char) := fun _ => none

/-- C5 witness fact store content: two stored facts. -/
def umC5W : List Json :=
  [Json.obj [("fact".data, Json.str ("a".data))],
   Json.obj [("fact".data, Json.str ("b".data))]]

/-- C5 witness state. -/
def bankC5W : SimpleMemoryBank := ⟨[("u".data, umC5W)], []⟩

/-- C6 counterexample state: the empty bank. -/
def bankC6 : SimpleMemoryBank := ⟨[], []⟩

/-- C6 witness state: one turn stored for user `v`. -/
def bankC6W : SimpleMemoryBank :=
  ⟨[], [("v".data, [⟨"s9".data, "user".data, "x".data, "t9".data⟩])]⟩

/-- C7 counterexample content: a valid JSON array whose single string
contains a triple backtick. -/
def contentC7 : List Char := "[\"x```y\"]".data

/-- C7 counterexample generation output: `contentC7` wrapped in a
labelled code fence. -/
def fencedC7 : List Char := ("```json\n".data) ++ contentC7 ++ ("\n```".data)

/-- C8 witness oracle: answers with parseable JSON (never consulted). -/
def genC8W : List Char → Option (List Char) := fun _ => some ("[1]".data)

/-- C8 witness state: the only turn of user `u` belongs to session `s1`,
so session `s2` has zero turns. -/
def bankC8W : SimpleMemoryBank :=
  ⟨[], [("u".data, [⟨"s1".data, "user".data, "hi".data, "t0".data⟩])]⟩

/-- C10 oracle: the parsed item is a dict without a `fact` key. -/
def genC10 : List Char → Option (List Char) :=
  fun _ => some ("[\x7b\"context\": \"c\"\x7d]".data)

/-- C10 initial state: one recorded turn, built through
`add_session_message` from the empty bank. -/
def bankC10 : SimpleMemoryBank :=
  add_session_message ⟨[], []⟩ ("u".data) ("s1".data) ("user".data) ("hi".data) ("t0".data)

/-- The fields of the fact dict stored by the C10 extraction run. -/
def fieldsC10 : List (List Char × Json) :=
  [("context".data, Json.str ("c".data)),
   ("session_id".data, Json.str ("s1".data)),
   ("extracted_at".data, Json.str ("t1".data))]

/-- C10 witness state: every stored fact has a `fact` key. -/
def bankC10W : SimpleMemoryBank :=
  ⟨[("u".data, [Json.obj [("fact".data, Json.str ("a".data))]])], []⟩

/-- C1 witness oracle: the generation call answers with the text of an
empty JSON object. -/
def genC1W : List Char → Option (List Char) := fun _ => some ("\x7b\x7d".data)

/-- C1 witness state: one recorded turn in session `s1`, no facts. -/
def bankC1W : SimpleMemoryBank :=
  ⟨[], [("u".data, [⟨"s1".data, "user".data, "hi".data, "t0".data⟩])]⟩

/-- The shape invariant of every reachable store: each stored fact of
each user is a dict.  It holds in the empty bank and is preserved by all
operations, since the storing loop only ever appends stamped dicts. -/
def all_facts_are_dicts (bank : SimpleMemoryBank) : Prop :=
  ∀ u m, m ∈ (dget? u bank.memories).getD [] → ∃ fs, m = Json.obj fs

/-! ## Dictionary lemmas -/

/-- Looking up a key just set returns the new value. -/
theorem dget?_dset_self {α : Type} (k : List Char) (v : α) (l : List (List Char × α)) :
    dget? k (dset k v l) = some v := by
  induction l with
  | nil => simp [dset, dget?]
  | cons kv rest ih =>
    obtain ⟨k', v'⟩ := kv
    by_cases h : k = k'
    · simp [dset, dget?, h]
    · simp [dset, dget?, h, ih]

/-- Setting one key leaves the lookup of any other key unchanged. -/
theorem dget?_dset_ne {α : Type} (k k2 : List Char) (v : α) (l : List (List Char × α))
    (h : k ≠ k2) : dget? k (dset k2 v l) = dget? k l := by
  induction l with
  | nil => simp [dset, dget?, h]
  | cons kv rest ih =>
    obtain ⟨k', v'⟩ := kv
    by_cases h2 : k2 = k'
    · subst h2; simp [dset, dget?, h]
    · simp [dset, dget?, h2, ih]

/-- The `if user_id not in self.memories: self.memories[user_id] = []`
step does not change the fact list the user is seen to have. -/
theorem ensure_memories_getD (bank : SimpleMemoryBank) (u : List Char) :
    (dget? u (if (dget? u bank.memories).isSome then bank
      else { bank with memories := dset u [] bank.memories }).memories).getD []
    = (dget? u bank.memories).getD [] := by
  cases h : dget? u bank.memories with
  | some l => simp [h]
  | none => simp [h, dget?_dset_self]

/-! ## Store-loop lemmas -/

/-- When every parsed item is a dict, the storing loop succeeds, appends
exactly the stamped items to the user fact list, leaves the sessions
untouched, and stamps each stored item with the session id. -/
theorem store_loop_ok_of_all_obj (u sid now : List Char) :
    ∀ (items : List Json) (bank : SimpleMemoryBank),
      (∀ m ∈ items, ∃ fs, m = Json.obj fs) →
      ∃ bank' stamped,
        store_loop u sid now items bank = (bank', Except.ok stamped) ∧
        stamped.length = items.length ∧
        (dget? u bank'.memories).getD [] = (dget? u bank.memories).getD [] ++ stamped ∧
        bank'.sessions = bank.sessions ∧
        (∀ j ∈ stamped, ∃ fs2, j = Json.obj fs2 ∧
          dget? ("session_id".data) fs2 = some (Json.str sid)) := by
  intro items
  induction items with
  | nil =>
    intro bank _
    exact ⟨bank, [], rfl, rfl, (List.append_nil _).symm, rfl,
      fun j hj => absurd hj (List.not_mem_nil j)⟩
  | cons m rest ih =>
    intro bank h
    obtain ⟨fs, rfl⟩ := h m (List.mem_cons_self m rest)
    obtain ⟨bank', stamped, heq, hlen, hmem, hsess, hprop⟩ :=
      ih (SimpleMemoryBank.mk
            (dset u (((dget? u bank.memories).getD []) ++ [stamp sid now fs]) bank.memories)
            bank.sessions)
        (fun x hx => h x (List.mem_cons_of_mem _ hx))
    refine ⟨bank', stamp sid now fs :: stamped, ?_, by simp [hlen], ?_, ?_, ?_⟩
    · unfold store_loop
      dsimp only
      rw [heq]
    · rw [hmem]
      simp [dget?_dset_self]
    · exact hsess
    · intro j hj
      rcases List.mem_cons.mp hj with rfl | hj
      · refine ⟨dset ("extracted_at".data) (Json.str now)
            (dset ("session_id".data) (Json.str sid) fs), rfl, ?_⟩
        rw [dget?_dset_ne _ _ _ _ (by decide), dget?_dset_self]
      · exact hprop j hj

/-! ## Shape lemmas for the two fallible methods -/

/-- On the two early-failure paths — the generation call raising, or its
output failing to parse — `extract_memories` returns exactly the empty
list (this also covers the early returns before the call). -/
theorem extract_arr_of_no_parse (gen : List Char → Option (List Char))
    (bank : SimpleMemoryBank) (u sid now : List Char)
    (h : ∀ t, gen (extract_prompt bank u sid) = some t →
      json_loads (strip_code_fence (trimL t)) = none) :
    (extract_memories gen bank u sid now).1 = Json.arr [] := by
  unfold extract_memories
  split
  · rfl
  · dsimp only
    split
    · rfl
    · cases hg : gen (extract_prompt bank u sid) with
      | none => rfl
      | some t =>
        dsimp only
        rw [h t hg]

/-- When the generation output parses to a list, `extract_memories`
returns a list: the stamped items when all parsed items are dicts, or
the empty list when the storing loop raises midway. -/
theorem extract_arr_of_parse_list (gen : List Char → Option (List Char))
    (bank : SimpleMemoryBank) (u sid now t : List Char) (items : List Json)
    (hg : gen (extract_prompt bank u sid) = some t)
    (hl : json_loads (strip_code_fence (trimL t)) = some (Json.arr items)) :
    isArr (extract_memories gen bank u sid now).1 = true := by
  unfold extract_memories
  split
  · rfl
  · dsimp only
    split
    · rfl
    · rw [hg]
      dsimp only
      rw [hl]
      dsimp only [py_iter]
      split
      · rfl
      · rfl

/-- When the call reaches the generation step and the output parses to a
non-list value, `extract_memories` returns that value as-is exactly when
it is an empty dict or an empty string (the iteration has no items, so
the try block completes and returns the parsed object); for every other
non-list value the iteration raises `TypeError`, which is caught, and
the empty list is returned. -/
theorem extract_nonlist_value (gen : List Char → Option (List Char))
    (bank : SimpleMemoryBank) (u sid now t : List Char) (v : Json)
    (h0 : session_turns bank u sid ≠ [])
    (hg : gen (extract_prompt bank u sid) = some t)
    (hl : json_loads (strip_code_fence (trimL t)) = some v)
    (hnl : isArr v = false) :
    ((v = Json.obj [] ∨ v = Json.str []) → (extract_memories gen bank u sid now).1 = v) ∧
    (v ≠ Json.obj [] → v ≠ Json.str [] →
      (extract_memories gen bank u sid now).1 = Json.arr []) := by
  have hs : (dget? u bank.sessions).isNone = false := by
    cases hq : dget? u bank.sessions with
    | none => exact absurd (by simp [session_turns, hq]) h0
    | some l => rfl
  have hne : (session_turns bank u sid).isEmpty = false := by
    simpa [List.isEmpty_iff] using h0
  simp only [extract_memories, hs, hne, hg, hl, Bool.false_eq_true, if_false]
  cases v with
  | arr l => simp [isArr] at hnl
  | null =>
    constructor
    · intro hc; rcases hc with hc | hc <;> exact Json.noConfusion hc
    · intro _ _; rfl
  | bool b =>
    constructor
    · intro hc; rcases hc with hc | hc <;> exact Json.noConfusion hc
    · intro _ _; rfl
  | num n =>
    constructor
    · intro hc; rcases hc with hc | hc <;> exact Json.noConfusion hc
    · intro _ _; rfl
  | str s =>
    cases s with
    | nil =>
      constructor
      · intro _; rfl
      · intro _ hne2; exact absurd rfl hne2
    | cons c cs =>
      constructor
      · intro hc
        rcases hc with hc | hc
        · exact Json.noConfusion hc
        · injection hc with h2; exact List.noConfusion h2
      · intro _ _; rfl
  | obj fs =>
    cases fs with
    | nil =>
      constructor
      · intro _; rfl
      · intro hne2 _; exact absurd rfl hne2
    | cons kv rest =>
      constructor
      · intro hc
        rcases hc with hc | hc
        · injection hc with h2; exact List.noConfusion h2
        · exact Json.noConfusion hc
      · intro _ _; rfl

/-- The value returned by `search_memories` is a list on the empty-store
and fallback paths; otherwise it is exactly whatever value the stripped
generation output parses to. -/
theorem search_result_shape (gen : List Char → Option (List Char))
    (bank : SimpleMemoryBank) (u q : List Char) :
    isArr (search_memories gen bank u q).1 = true ∨
    (∃ um t, dget? u bank.memories = some um ∧
      gen (search_prompt q um) = some t ∧
      json_loads (strip_code_fence (trimL t)) = some (search_memories gen bank u q).1) := by
  unfold search_memories
  cases hm : dget? u bank.memories with
  | none => left; rfl
  | some um =>
    dsimp only
    split
    · left; rfl
    · cases hg : gen (search_prompt q um) with
      | none => left; rfl
      | some t =>
        dsimp only
        cases hl : json_loads (strip_code_fence (trimL t)) with
        | none => left; rfl
        | some v => right; exact ⟨um, t, rfl, hg, hl⟩

/-! ## String lemmas for the code-fence stripping -/

/-- A pattern is a prefix of itself followed by anything. -/
theorem startsWithL_append_self : ∀ (p r : List Char), startsWithL p (p ++ r) = true := by
  intro p
  induction p with
  | nil => intro r; rfl
  | cons c cs ih => intro r; simp [startsWithL, ih]

/-- Replacement on the empty string is the empty string. -/
theorem replaceFuel_nil (old rep : List Char) (n : Nat) : replaceFuel old rep n [] = [] := by
  cases n <;> rfl

/-- Replacement does nothing when the pattern does not occur. -/
theorem replaceFuel_not_hasSub (old rep : List Char) :
    ∀ (n : Nat) (l : List Char), hasSub old l = false → replaceFuel old rep n l = l := by
  intro n
  induction n with
  | zero => intro l _; rfl
  | succ n ih =>
    intro l h
    cases l with
    | nil => rfl
    | cons c cs =>
      simp only [hasSub, Bool.or_eq_false_iff] at h
      simp [replaceFuel, h.1, ih cs h.2]

/-- Replacement at an immediate match: consume the pattern, emit the
replacement, continue after it. -/
theorem replaceFuel_head_match (c : Char) (cs rep rest : List Char) (n : Nat) :
    replaceFuel (c :: cs) rep (n + 1) ((c :: cs) ++ rest)
      = rep ++ replaceFuel (c :: cs) rep n rest := by
  have h1 : startsWithL (c :: cs) (c :: (cs ++ rest)) = true := startsWithL_append_self ..
  have h2 : List.drop (c :: cs).length (c :: (cs ++ rest)) = rest := by
    have h3 := List.drop_left (c :: cs) rest
    simp only [List.cons_append] at h3
    exact h3
  show replaceFuel (c :: cs) rep (n + 1) (c :: (cs ++ rest))
      = rep ++ replaceFuel (c :: cs) rep n rest
  simp only [replaceFuel, List.append_eq]
  rw [if_pos h1, h2]

/-- No extension of the triple-backtick pattern can match at a position
of a text that contains no triple backtick before a newline boundary. -/
theorem startsWithL_tbt_false (p : List Char) (c : Char) (s' tr : List Char)
    (h : hasSub ['`', '`', '`'] (c :: s') = false) :
    startsWithL ('`' :: '`' :: '`' :: p) (c :: (s' ++ '\n' :: tr)) = false := by
  have hnb : (('`' : Char) == '\n') = false := by decide
  cases s' with
  | nil => simp [startsWithL, hnb]
  | cons d s'' =>
    cases s'' with
    | nil => simp [startsWithL, hnb]
    | cons e s3 =>
      have h1 : startsWithL ['`', '`', '`'] (c :: d :: e :: s3) = false := by
        simp only [hasSub, Bool.or_eq_false_iff] at h
        exact h.1
      simp only [startsWithL, List.cons_append] at h1 ⊢
      cases hc : (('`' : Char) == c) <;> cases hd : (('`' : Char) == d) <;>
        cases he : (('`' : Char) == e) <;> simp_all

/-- The fence label does not occur in content free of triple backticks
followed by the closing fence. -/
theorem hasSub_fj_false : ∀ (s : List Char), hasSub ['`', '`', '`'] s = false →
    hasSub ['`', '`', '`', 'j', 's', 'o', 'n'] (s ++ '\n' :: ['`', '`', '`']) = false := by
  intro s
  induction s with
  | nil => intro _; decide
  | cons c s' ih =>
    intro h
    have h0 := h
    simp only [hasSub, Bool.or_eq_false_iff] at h
    simp only [List.cons_append, hasSub, Bool.or_eq_false_iff]
    exact ⟨startsWithL_tbt_false ['j', 's', 'o', 'n'] c s' ['`', '`', '`'] h0, ih h.2⟩

/-- Replacing triple backticks in `s ++ "\n` ``"` (content free of them)
removes exactly the closing fence. -/
theorem replaceFuel_tbt_tail : ∀ (s : List Char) (n : Nat),
    hasSub ['`', '`', '`'] s = false → s.length + 4 ≤ n →
    replaceFuel ['`', '`', '`'] [] n (s ++ '\n' :: ['`', '`', '`']) = s ++ ['\n'] := by
  intro s
  induction s with
  | nil =>
    intro n _ hn
    obtain ⟨m, rfl⟩ : ∃ m, n = m + 4 := ⟨n - 4, by omega⟩
    have e1 : startsWithL ['`', '`', '`'] ('\n' :: ['`', '`', '`']) = false := by decide
    have e2 : startsWithL ['`', '`', '`'] ['`', '`', '`'] = true := by decide
    simp [replaceFuel, e1, e2, replaceFuel_nil]
  | cons c s' ih =>
    intro n h hn
    obtain ⟨m, rfl⟩ : ∃ m, n = m + 1 := ⟨n - 1, by omega⟩
    have h0 := h
    simp only [hasSub, Bool.or_eq_false_iff] at h
    have hpf : startsWithL ['`', '`', '`'] (c :: (s' ++ '\n' :: ['`', '`', '`'])) = false := by
      have h4 := startsWithL_tbt_false [] c s' ['`', '`', '`'] h0
      simpa using h4
    simp only [List.cons_append, replaceFuel, List.append_eq, hpf, Bool.false_eq_true, if_false]
    rw [ih m h.2 (by simp at hn; omega)]

/-- `strip` is the identity on text that starts and ends with
non-whitespace characters. -/
theorem trimL_eq_self_of_ends (c d : Char) (x : List Char)
    (hc : isWs c = false) (hd : isWs d = false) :
    trimL (c :: (x ++ [d])) = c :: (x ++ [d]) := by
  unfold trimL
  have h1 : (c :: (x ++ [d])).dropWhile isWs = c :: (x ++ [d]) := by
    simp [List.dropWhile, hc]
  rw [h1]
  have h2 : (c :: (x ++ [d])).reverse = d :: (x.reverse ++ [c]) := by
    simp
  rw [h2]
  have h3 : (d :: (x.reverse ++ [c])).dropWhile isWs = d :: (x.reverse ++ [c]) := by
    simp [List.dropWhile, hd]
  rw [h3]
  simp

/-- Stripping absorbs a leading whitespace character. -/
theorem trimL_ws_head (c : Char) (l : List Char) (h : isWs c = true) :
    trimL (c :: l) = trimL l := by
  unfold trimL
  simp [List.dropWhile, h]

/-- When the whole first part is dropped, dropping continues into the
second part. -/
theorem dropWhile_eq_nil_append (p : Char → Bool) :
    ∀ (x y : List Char), x.dropWhile p = [] → (x ++ y).dropWhile p = y.dropWhile p := by
  intro x
  induction x with
  | nil => intro y _; rfl
  | cons a as ih =>
    intro y h
    simp only [List.dropWhile] at h ⊢
    cases hp : p a with
    | true => simp only [hp] at h ⊢; exact ih y h
    | false => simp [hp] at h

/-- When the first part survives dropping, the second part is untouched. -/
theorem dropWhile_append_ne_nil (p : Char → Bool) :
    ∀ (x y : List Char) (c : Char) (cs : List Char),
      x.dropWhile p = c :: cs → (x ++ y).dropWhile p = (c :: cs) ++ y := by
  intro x
  induction x with
  | nil => intro y c cs h; exact absurd h (by simp)
  | cons a as ih =>
    intro y c cs h
    simp only [List.dropWhile] at h ⊢
    cases hp : p a with
    | true => simp only [hp] at h ⊢; exact ih y c cs h
    | false =>
      simp only [hp] at h ⊢
      injection h with h1 h2
      subst h1; subst h2
      simp

/-- Stripping absorbs a trailing whitespace character. -/
theorem trimL_ws_last (c : Char) (l : List Char) (h : isWs c = true) :
    trimL (l ++ [c]) = trimL l := by
  unfold trimL
  cases hd : l.dropWhile isWs with
  | nil =>
    rw [dropWhile_eq_nil_append isWs l [c] hd]
    simp [List.dropWhile, h]
  | cons a as =>
    rw [dropWhile_append_ne_nil isWs l [c] a as hd]
    rw [List.reverse_append]
    show (((c :: []) ++ (a :: as).reverse).dropWhile isWs).reverse = _
    rw [List.cons_append, List.dropWhile]
    simp [h]

/-- A matching pattern still matches with more text appended. -/
theorem startsWithL_extend : ∀ (p l y : List Char),
    startsWithL p l = true → startsWithL p (l ++ y) = true := by
  intro p
  induction p with
  | nil => intro l y _; rfl
  | cons a ps ih =>
    intro l y h
    cases l with
    | nil => simp [startsWithL] at h
    | cons b bs =>
      simp only [startsWithL, Bool.and_eq_true] at h
      simp only [List.cons_append, startsWithL, Bool.and_eq_true]
      exact ⟨h.1, ih bs y h.2⟩

/-- A matching pattern matches with its tail cut off. -/
theorem startsWithL_mono_pat : ∀ (p q l : List Char),
    startsWithL (p ++ q) l = true → startsWithL p l = true := by
  intro p
  induction p with
  | nil => intro q l _; rfl
  | cons a ps ih =>
    intro q l h
    cases l with
    | nil => simp [startsWithL] at h
    | cons b bs =>
      simp only [List.cons_append, startsWithL, Bool.and_eq_true] at h
      simp only [startsWithL, Bool.and_eq_true]
      exact ⟨h.1, ih q bs h.2⟩

/-- A pattern matching at the front occurs as a substring. -/
theorem hasSub_of_startsWithL (pat l : List Char) (h : startsWithL pat l = true) :
    hasSub pat l = true := by
  cases l with
  | nil => exact h
  | cons c cs => simp [hasSub, h]

/-- Occurrence is preserved by appending on the right. -/
theorem hasSub_append_right : ∀ (pat l y : List Char),
    hasSub pat l = true → hasSub pat (l ++ y) = true := by
  intro pat l
  induction l with
  | nil =>
    intro y h
    cases pat with
    | nil =>
      cases y with
      | nil => rfl
      | cons c cs => simp [hasSub, startsWithL]
    | cons p ps => simp [hasSub, startsWithL] at h
  | cons a as ih =>
    intro y h
    simp only [hasSub, Bool.or_eq_true] at h
    simp only [List.cons_append, hasSub, Bool.or_eq_true]
    rcases h with h | h
    · left
      have h2 := startsWithL_extend pat (a :: as) y h
      simpa using h2
    · right; exact ih y h

/-- Occurrence is preserved by appending on the left. -/
theorem hasSub_append_left : ∀ (pat x l : List Char),
    hasSub pat l = true → hasSub pat (x ++ l) = true := by
  intro pat x
  induction x with
  | nil => intro l h; exact h
  | cons c cs ih =>
    intro l h
    simp only [List.cons_append, hasSub, Bool.or_eq_true]
    right
    exact ih l h

/-- `dropWhile` only removes a prefix. -/
theorem exists_append_dropWhile (p : Char → Bool) :
    ∀ (l : List Char), ∃ x, l = x ++ l.dropWhile p := by
  intro l
  induction l with
  | nil => exact ⟨[], rfl⟩
  | cons c cs ih =>
    cases hp : p c with
    | true =>
      obtain ⟨x, hx⟩ := ih
      refine ⟨c :: x, ?_⟩
      simp only [List.dropWhile, hp]
      rw [List.cons_append, ← hx]
    | false =>
      refine ⟨[], ?_⟩
      simp [List.dropWhile, hp]

/-- The stripped text sits inside the original text. -/
theorem trimL_is_infix (s : List Char) : ∃ x y, s = x ++ (trimL s ++ y) := by
  obtain ⟨x1, hx1⟩ := exists_append_dropWhile isWs s
  obtain ⟨x2, hx2⟩ := exists_append_dropWhile isWs (s.dropWhile isWs).reverse
  refine ⟨x1, x2.reverse, ?_⟩
  have hd : s.dropWhile isWs = trimL s ++ x2.reverse := by
    have h3 := congrArg List.reverse hx2
    rw [List.reverse_reverse, List.reverse_append] at h3
    exact h3
  calc s = x1 ++ s.dropWhile isWs := hx1
    _ = x1 ++ (trimL s ++ x2.reverse) := by rw [hd]

/-- An occurrence inside the stripped text is an occurrence in the text. -/
theorem hasSub_trimL (pat s : List Char) (h : hasSub pat (trimL s) = true) :
    hasSub pat s = true := by
  obtain ⟨x, y, hxy⟩ := trimL_is_infix s
  rw [hxy]
  exact hasSub_append_left pat x _ (hasSub_append_right pat _ y h)

/-- An unfenced output free of triple backticks passes through the
fence-stripping step unchanged. -/
theorem strip_code_fence_of_no_fence (s : List Char)
    (hns : hasSub ("```".data) s = false) :
    strip_code_fence (trimL s) = trimL s := by
  unfold strip_code_fence
  cases hq : startsWithL ("```json".data) (trimL s) with
  | false => simp
  | true =>
    exfalso
    have h2 : startsWithL (("```".data) ++ ("json".data)) (trimL s) = true := hq
    have h3 := startsWithL_mono_pat ("```".data) ("json".data) (trimL s) h2
    have h4 := hasSub_of_startsWithL ("```".data) (trimL s) h3
    rw [hasSub_trimL ("```".data) s h4] at hns
    exact Bool.noConfusion hns

/-- The full stripping pipeline of both methods maps a fenced text to
exactly the stripped content, for every content free of triple
backticks — the same `strip()` the methods apply to unfenced outputs. -/
theorem strip_code_fence_wrapped (s : List Char)
    (hns : hasSub ("```".data) s = false) :
    strip_code_fence (trimL (("```json\n".data) ++ s ++ ("\n```".data))) = trimL s := by
  have hns' : hasSub ['`', '`', '`'] s = false := hns
  have e0 : ("```json\n".data) ++ s ++ ("\n```".data)
      = '`' :: (('`' :: '`' :: 'j' :: 's' :: 'o' :: 'n' :: '\n' :: (s ++ ['\n', '`', '`'])) ++ ['`']) := by
    show ['`', '`', '`', 'j', 's', 'o', 'n', '\n'] ++ s ++ ['\n', '`', '`', '`'] = _
    simp
  rw [e0]
  rw [trimL_eq_self_of_ends '`' '`' _ (by decide) (by decide)]
  rw [← e0]
  unfold strip_code_fence
  have e1 : ("```json\n".data) ++ s ++ ("\n```".data)
      = ('`' :: '`' :: '`' :: 'j' :: 's' :: 'o' :: 'n' :: []) ++ ('\n' :: (s ++ '\n' :: ['`', '`', '`'])) := by
    show ['`', '`', '`', 'j', 's', 'o', 'n', '\n'] ++ s ++ ['\n', '`', '`', '`'] = _
    simp
  have hstart : startsWithL ("```json".data) (("```json\n".data) ++ s ++ ("\n```".data)) = true := by
    rw [e1]
    exact startsWithL_append_self ..
  rw [if_pos hstart]
  have hlen1 : (("```json\n".data) ++ s ++ ("\n```".data)).length = (s.length + 11) + 1 := by
    simp [List.length_append]
  have hrest : hasSub ['`', '`', '`', 'j', 's', 'o', 'n'] ('\n' :: (s ++ '\n' :: ['`', '`', '`'])) = false := by
    simp only [hasSub, Bool.or_eq_false_iff]
    constructor
    · simp [startsWithL]
    · exact hasSub_fj_false s hns'
  have hr1 : pyReplace ("```json".data) [] (("```json\n".data) ++ s ++ ("\n```".data))
      = '\n' :: (s ++ '\n' :: ['`', '`', '`']) := by
    unfold pyReplace
    rw [hlen1, e1]
    rw [replaceFuel_head_match]
    rw [replaceFuel_not_hasSub _ _ _ _ hrest]
    rfl
  rw [hr1]
  have hr2 : pyReplace ("```".data) [] ('\n' :: (s ++ '\n' :: ['`', '`', '`']))
      = '\n' :: (s ++ ['\n']) := by
    unfold pyReplace
    have hlen2 : ('\n' :: (s ++ '\n' :: ['`', '`', '`'])).length = (s.length + 4) + 1 := by
      simp [List.length_append]
    rw [hlen2]
    have hpf : startsWithL ['`', '`', '`'] ('\n' :: (s ++ '\n' :: ['`', '`', '`'])) = false := by
      simp [startsWithL]
    show replaceFuel ['`', '`', '`'] [] ((s.length + 4) + 1) ('\n' :: (s ++ '\n' :: ['`', '`', '`'])) = _
    rw [replaceFuel]
    rw [if_neg (by simp [hpf])]
    rw [replaceFuel_tbt_tail s (s.length + 4) hns' (by omega)]
  rw [hr2]
  rw [trimL_ws_head '\n' _ (by decide)]
  rw [trimL_ws_last '\n' s (by decide)]

/-! ## Summary lemmas -/

/-- Reading the facts succeeds when every stored item is a dict with a
`fact` key. -/
theorem collect_facts_ok : ∀ (l : List Json),
    (∀ m ∈ l, ∃ fs, m = Json.obj fs ∧ (dget? ("fact".data) fs).isSome = true) →
    ∃ facts, collect_facts l = Except.ok facts := by
  intro l
  induction l with
  | nil => intro _; exact ⟨[], rfl⟩
  | cons m rest ih =>
    intro h
    obtain ⟨fs, rfl, hsome⟩ := h m (List.mem_cons_self m rest)
    obtain ⟨facts, hfacts⟩ := ih (fun x hx => h x (List.mem_cons_of_mem _ hx))
    obtain ⟨v, hv⟩ := Option.isSome_iff_exists.mp hsome
    refine ⟨v :: facts, ?_⟩
    simp [collect_facts, fact_field, hv, hfacts]

/-- `get_memory_summary` returns text (never raises) when every stored
fact of the user is a dict with a `fact` key. -/
theorem get_memory_summary_total (bank : SimpleMemoryBank) (u : List Char)
    (h : ∀ m ∈ (dget? u bank.memories).getD [],
      ∃ fs, m = Json.obj fs ∧ (dget? ("fact".data) fs).isSome = true) :
    ∃ s, get_memory_summary bank u = Except.ok s := by
  unfold get_memory_summary
  cases hm : dget? u bank.memories with
  | none => exact ⟨_, rfl⟩
  | some mems =>
    dsimp only
    split
    · exact ⟨_, rfl⟩
    · rw [hm] at h
      simp only [Option.getD_some] at h
      obtain ⟨facts, hf⟩ := collect_facts_ok mems h
      rw [hf]
      exact ⟨_, rfl⟩

/-- Reading the facts raises `KeyError` whenever all items are dicts and
one of them lacks the `fact` key (the comprehension stops at the first
missing key). -/
theorem collect_facts_keyError : ∀ (l : List Json),
    (∀ m ∈ l, ∃ fs, m = Json.obj fs) →
    (∃ m ∈ l, ∃ fs, m = Json.obj fs ∧ dget? ("fact".data) fs = none) →
    collect_facts l = Except.error PyErr.keyError := by
  intro l
  induction l with
  | nil =>
    intro _ hex
    obtain ⟨m, hm, _⟩ := hex
    exact absurd hm (List.not_mem_nil m)
  | cons a rest ih =>
    intro hall hex
    obtain ⟨fs, rfl⟩ := hall a (List.mem_cons_self a rest)
    cases hf : dget? ("fact".data) fs with
    | none => simp [collect_facts, fact_field, hf]
    | some v =>
      obtain ⟨m, hm, fs2, hm2, hnone⟩ := hex
      rcases List.mem_cons.mp hm with rfl | hmr
      · injection hm2 with h2
        subst h2
        rw [hf] at hnone
        exact Option.noConfusion hnone
      · have hrest := ih (fun x hx => hall x (List.mem_cons_of_mem _ hx)) ⟨m, hmr, fs2, hm2, hnone⟩
        simp [collect_facts, fact_field, hf, hrest]

/-- For every state whose stored facts (for the queried user) are all
dicts, `get_memory_summary` raises `KeyError` as soon as one of them has
no `fact` key. -/
theorem get_memory_summary_keyError (bank : SimpleMemoryBank) (u : List Char)
    (hall : all_facts_are_dicts bank)
    (hex : ∃ m ∈ (dget? u bank.memories).getD [],
      ∃ fs, m = Json.obj fs ∧ dget? ("fact".data) fs = none) :
    get_memory_summary bank u = Except.error PyErr.keyError := by
  obtain ⟨m, hm, hw⟩ := hex
  cases hq : dget? u bank.memories with
  | none => rw [hq] at hm; simp at hm
  | some mems =>
    rw [hq] at hm
    simp only [Option.getD_some] at hm
    have hne : mems.isEmpty = false := by
      cases mems with
      | nil => exact absurd hm (List.not_mem_nil m)
      | cons a l => rfl
    have hcf : collect_facts mems = Except.error PyErr.keyError := by
      apply collect_facts_keyError
      · intro x hx
        exact hall u x (by rw [hq]; simpa using hx)
      · exact ⟨m, hm, hw⟩
    unfold get_memory_summary
    rw [hq]
    dsimp only
    rw [if_neg (by simp [hne])]
    rw [hcf]

/-- `search_memories` returns its bank unchanged (helper form of the
read-only property, used by the invariant-preservation lemmas). -/
theorem search_memories_bank_eq (gen : List Char → Option (List Char))
    (bank : SimpleMemoryBank) (user_id query : List Char) :
    (search_memories gen bank user_id query).2 = bank := by
  unfold search_memories
  cases dget? user_id bank.memories with
  | none => rfl
  | some um =>
    dsimp only
    split
    · rfl
    · cases gen (search_prompt query um) with
      | none => rfl
      | some rtext =>
        dsimp only
        cases json_loads (strip_code_fence (trimL rtext)) <;> rfl

/-- The storing loop only appends stamped dicts, so it preserves the
all-facts-are-dicts invariant on both its success and its error exits. -/
theorem store_loop_all_dicts (u sid now : List Char) :
    ∀ (items : List Json) (bank : SimpleMemoryBank), all_facts_are_dicts bank →
      all_facts_are_dicts (store_loop u sid now items bank).1 := by
  intro items
  induction items with
  | nil => intro bank h; exact h
  | cons m rest ih =>
    intro bank h
    cases m with
    | obj fs =>
      have h1 : all_facts_are_dicts (SimpleMemoryBank.mk
          (dset u (((dget? u bank.memories).getD []) ++ [stamp sid now fs]) bank.memories)
          bank.sessions) := by
        intro u' m' hm'
        by_cases hu : u' = u
        · subst hu
          rw [dget?_dset_self] at hm'
          simp only [Option.getD_some] at hm'
          rcases List.mem_append.mp hm' with hm2 | hm2
          · exact h u' m' hm2
          · rw [List.mem_singleton] at hm2
            subst hm2
            exact ⟨_, rfl⟩
        · rw [dget?_dset_ne _ _ _ _ hu] at hm'
          exact h u' m' hm'
      have h2 := ih _ h1
      unfold store_loop
      dsimp only
      cases h3 : store_loop u sid now rest (SimpleMemoryBank.mk
          (dset u (((dget? u bank.memories).getD []) ++ [stamp sid now fs]) bank.memories)
          bank.sessions) with
      | mk b2 res =>
        rw [h3] at h2
        cases res with
        | error e => exact h2
        | ok st => exact h2
    | null => exact h
    | bool b => exact h
    | num n => exact h
    | str s => exact h
    | arr l => exact h

/-- `extract_memories` preserves the all-facts-are-dicts invariant on
every path: the state is unchanged, or only gains an empty entry, or
gains stamped dicts through the storing loop. -/
theorem extract_memories_all_dicts (gen : List Char → Option (List Char))
    (bank : SimpleMemoryBank) (u sid now : List Char)
    (h : all_facts_are_dicts bank) :
    all_facts_are_dicts (extract_memories gen bank u sid now).2 := by
  have hens : all_facts_are_dicts (if (dget? u bank.memories).isSome then bank
      else { bank with memories := dset u [] bank.memories }) := by
    split
    · exact h
    · intro u' m' hm'
      by_cases hu : u' = u
      · subst hu
        rw [dget?_dset_self] at hm'
        simp at hm'
      · rw [dget?_dset_ne _ _ _ _ hu] at hm'
        exact h u' m' hm'
  unfold extract_memories
  split
  · exact h
  · dsimp only
    split
    · exact h
    · cases gen (extract_prompt bank u sid) with
      | none => exact h
      | some t =>
        dsimp only
        cases json_loads (strip_code_fence (trimL t)) with
        | none => exact h
        | some extracted =>
          dsimp only
          cases py_iter extracted with
          | none => exact hens
          | some items =>
            dsimp only
            have h2 := store_loop_all_dicts u sid now items _ hens
            cases h3 : store_loop u sid now items (if (dget? u bank.memories).isSome = true then bank
                else { bank with memories := dset u [] bank.memories }) with
            | mk b2 res =>
              rw [h3] at h2
              cases res with
              | error e => exact h2
              | ok st => cases extracted <;> exact h2

/-! ## The claims -/

/-- C1, counterexample: with one stored fact and a generation output
consisting of an empty JSON object, `search_memories` returns that parsed
dict unchanged — a non-list value — so the claim that both methods always
return a list is false. -/
theorem claim_C1_counterexample :
    isArr (search_memories genC1 bankC1 ("u".data) ("q".data)).1 = false ∧
    (search_memories genC1 bankC1 ("u".data) ("q".data)).1 = Json.obj [] :=
  ⟨rfl, rfl⟩

/-- C1, amended: neither method ever raises (both are total functions of
the oracle outcome), and each path yields the stated result.  For
`extract_memories`: the error paths (generation error or parse failure,
and the early returns) yield exactly the empty list; a parsed list yields
a list; and, when the call reaches the generation step, a parsed non-list
value is returned as-is exactly when it is an empty dict or an empty
string, every other non-list value making the storing loop raise (caught)
so that the empty list is returned.  For `search_memories`: the result is
a list except that a successfully parsed value is returned unchanged,
whatever its type. -/
theorem claim_C1_amended :
    (∀ (gen : List Char → Option (List Char)) (bank : SimpleMemoryBank) (u sid now : List Char),
      ((∀ t, gen (extract_prompt bank u sid) = some t →
          json_loads (strip_code_fence (trimL t)) = none) →
        (extract_memories gen bank u sid now).1 = Json.arr []) ∧
      (∀ t items, gen (extract_prompt bank u sid) = some t →
        json_loads (strip_code_fence (trimL t)) = some (Json.arr items) →
        isArr (extract_memories gen bank u sid now).1 = true) ∧
      (∀ t v, session_turns bank u sid ≠ [] →
        gen (extract_prompt bank u sid) = some t →
        json_loads (strip_code_fence (trimL t)) = some v →
        isArr v = false →
        ((v = Json.obj [] ∨ v = Json.str []) → (extract_memories gen bank u sid now).1 = v) ∧
        (v ≠ Json.obj [] → v ≠ Json.str [] →
          (extract_memories gen bank u sid now).1 = Json.arr []))) ∧
    (∀ (gen : List Char → Option (List Char)) (bank : SimpleMemoryBank) (u q : List Char),
      isArr (search_memories gen bank u q).1 = true ∨
      (∃ um t, dget? u bank.memories = some um ∧
        gen (search_prompt q um) = some t ∧
        json_loads (strip_code_fence (trimL t)) = some (search_memories gen bank u q).1)) :=
  ⟨fun gen bank u sid now =>
    ⟨extract_arr_of_no_parse gen bank u sid now,
     fun t items hg hl => extract_arr_of_parse_list gen bank u sid now t items hg hl,
     fun t v h0 hg hl hnl => extract_nonlist_value gen bank u sid now t v h0 hg hl hnl⟩,
   search_result_shape⟩

/-- C1 witness: with one recorded turn and a generation output of an
empty JSON object, `extract_memories` does return the parsed empty dict
as-is — the non-list escape of the amended claim, exhibited concretely. -/
theorem claim_C1_witness :
    (extract_memories genC1W bankC1W ("u".data) ("s1".data) ("t1".data)).1 = Json.obj [] :=
  ((claim_C1_amended.1 genC1W bankC1W ("u".data) ("s1".data) ("t1".data)).2.2
    ("\x7b\x7d".data) (Json.obj [])
    (fun h => List.noConfusion
      (show (⟨"s1".data, "user".data, "hi".data, "t0".data⟩ : Turn) :: [] = [] from h))
    rfl rfl rfl).1 (Or.inl rfl)

/-- C2, counterexample: the generation output parses to
`[ \x7b"fact": "a"\x7d, 5 ]`; the first item is stamped and appended, then the
`5` raises `TypeError`, the except clause returns the empty list — yet
the user fact collection has grown from zero facts to one. -/
theorem claim_C2_counterexample :
    (extract_memories genC2 bankC2 ("u".data) ("s1".data) ("t1".data)).1 = Json.arr [] ∧
    memLen (extract_memories genC2 bankC2 ("u".data) ("s1".data) ("t1".data)).2 ("u".data) = 1 ∧
    memLen bankC2 ("u".data) = 0 ∧
    (store_loop ("u".data) ("s1".data) ("t1".data)
      [Json.obj [("fact".data, Json.str ("a".data))], Json.num 5]
      ⟨[("u".data, [])], bankC2.sessions⟩).2 = Except.error PyErr.typeError :=
  ⟨rfl, rfl, rfl, rfl⟩

/-- C2, amended: a failed extraction leaves the store unchanged when the
failure is the generation call erroring or its output failing to parse;
only a failure inside the storing loop (a parsed non-dict item) can leave
a prefix of the items appended. -/
theorem claim_C2_amended (gen : List Char → Option (List Char))
    (bank : SimpleMemoryBank) (u sid now : List Char)
    (h : ∀ t, gen (extract_prompt bank u sid) = some t →
      json_loads (strip_code_fence (trimL t)) = none) :
    (extract_memories gen bank u sid now).2 = bank := by
  unfold extract_memories
  split
  · rfl
  · dsimp only
    split
    · rfl
    · cases hg : gen (extract_prompt bank u sid) with
      | none => rfl
      | some t =>
        dsimp only
        rw [h t hg]

/-- C2 witness: a raising generation call on a bank with one recorded
turn leaves the bank unchanged. -/
theorem claim_C2_witness :
    (extract_memories genC2W bankC2W ("u".data) ("s1".data) ("t1".data)).2 = bankC2W :=
  claim_C2_amended genC2W bankC2W ("u".data) ("s1".data) ("t1".data)
    (fun _ ht => Option.noConfusion ht)

/-- C3, counterexample: with one stored fact and a generation output
parsing to a six-item list, `search_memories` returns all six items —
more than 5, and more than exist in the store — because the code never
truncates the well-formed result. -/
theorem claim_C3_counterexample :
    arrLen (search_memories genC3 bankC3 ("u".data) ("q".data)).1 = 6 ∧
    memLen bankC3 ("u".data) = 1 :=
  ⟨rfl, rfl⟩

/-- C3, amended: the five-item cap is only requested in the prompt, not
enforced: on the well-formed path `search_memories` returns exactly the
parsed list whatever its length; on the empty-store and fallback paths
it returns at most 3 items and never more than exist in the store. -/
theorem claim_C3_amended (gen : List Char → Option (List Char))
    (bank : SimpleMemoryBank) (u q : List Char) :
    (∃ um t, dget? u bank.memories = some um ∧
      gen (search_prompt q um) = some t ∧
      json_loads (strip_code_fence (trimL t)) = some (search_memories gen bank u q).1) ∨
    (arrLen (search_memories gen bank u q).1 ≤ 3 ∧
      arrLen (search_memories gen bank u q).1 ≤ memLen bank u) := by
  unfold search_memories
  cases hm : dget? u bank.memories with
  | none => right; simp [arrLen]
  | some um =>
    dsimp only
    split
    · right; simp [arrLen]
    · cases hg : gen (search_prompt q um) with
      | none =>
        right
        simp only [arrLen, List.length_take, memLen, hm, Option.getD_some]
        omega
      | some t =>
        dsimp only
        cases hl : json_loads (strip_code_fence (trimL t)) with
        | none =>
          right
          simp only [arrLen, List.length_take, memLen, hm, Option.getD_some]
          omega
        | some v =>
          left
          exact ⟨um, t, rfl, hg, hl⟩

/-- C4: when the session has turns, the generation call answers, and the
answer parses to a list of dicts, extraction succeeds: the user fact
collection is extended by exactly the stamped items (one per parsed
item), and every stored item carries `session_id` equal to the session
argument, overriding any parsed value of that field. -/
theorem claim_C4 (gen : List Char → Option (List Char)) (bank : SimpleMemoryBank)
    (u sid now t : List Char) (items : List Json)
    (h0 : session_turns bank u sid ≠ [])
    (h1 : gen (extract_prompt bank u sid) = some t)
    (h2 : json_loads (strip_code_fence (trimL t)) = some (Json.arr items))
    (h3 : ∀ m ∈ items, ∃ fs, m = Json.obj fs) :
    ∃ bank2 stamped,
      extract_memories gen bank u sid now = (Json.arr stamped, bank2) ∧
      stamped.length = items.length ∧
      (dget? u bank2.memories).getD [] = (dget? u bank.memories).getD [] ++ stamped ∧
      bank2.sessions = bank.sessions ∧
      (∀ j ∈ stamped, ∃ fs, j = Json.obj fs ∧
        dget? ("session_id".data) fs = some (Json.str sid)) := by
  have hs : (dget? u bank.sessions).isNone = false := by
    cases hq : dget? u bank.sessions with
    | none => exact absurd (by simp [session_turns, hq]) h0
    | some l => rfl
  have hne : (session_turns bank u sid).isEmpty = false := by
    simpa [List.isEmpty_iff] using h0
  obtain ⟨bank', stamped, heq, hlen, hmem, hsess, hprop⟩ :=
    store_loop_ok_of_all_obj u sid now items
      (if (dget? u bank.memories).isSome then bank
       else { bank with memories := dset u [] bank.memories }) h3
  refine ⟨bank', stamped, ?_, hlen, ?_, ?_, hprop⟩
  · simp only [extract_memories, hs, hne, h1, h2, Bool.false_eq_true, if_false, py_iter]
    rw [heq]
  · rw [hmem, ensure_memories_getD]
  · rw [hsess]
    cases hq2 : (dget? u bank.memories).isSome <;> simp [hq2]

/-- C4 witness: a concrete successful extraction of one fact. -/
theorem claim_C4_witness :
    ∃ bank2 stamped,
      extract_memories genC4W bankC4W ("u".data) ("s1".data) ("t1".data)
        = (Json.arr stamped, bank2) ∧
      stamped.length = itemsC4W.length ∧
      (dget? ("u".data) bank2.memories).getD []
        = (dget? ("u".data) bankC4W.memories).getD [] ++ stamped ∧
      bank2.sessions = bankC4W.sessions ∧
      (∀ j ∈ stamped, ∃ fs, j = Json.obj fs ∧
        dget? ("session_id".data) fs = some (Json.str ("s1".data))) :=
  claim_C4 genC4W bankC4W ("u".data) ("s1".data) ("t1".data)
    ("[\x7b\"fact\": \"a\"\x7d]".data) itemsC4W
    (fun h => List.noConfusion
      (show (⟨"s1".data, "user".data, "hi".data, "t0".data⟩ : Turn) :: [] = [] from h))
    rfl rfl
    (by
      intro m hm
      simp only [itemsC4W, List.mem_singleton] at hm
      subst hm
      exact ⟨_, rfl⟩)

/-- C5: with a non-empty fact store, whenever the generation call errors
or its output fails to parse, `search_memories` returns the first
`min 3 n` stored facts in insertion order — at most three, never empty,
and without raising. -/
theorem claim_C5 (gen : List Char → Option (List Char)) (bank : SimpleMemoryBank)
    (u q : List Char) (um : List Json)
    (h1 : dget? u bank.memories = some um) (h2 : um ≠ [])
    (h3 : ∀ t, gen (search_prompt q um) = some t →
      json_loads (strip_code_fence (trimL t)) = none) :
    search_memories gen bank u q = (Json.arr (um.take 3), bank) ∧
    (um.take 3).length = min 3 um.length ∧ um.take 3 ≠ [] := by
  refine ⟨?_, List.length_take .., ?_⟩
  · unfold search_memories
    rw [h1]
    dsimp only
    rw [if_neg (by simpa [List.isEmpty_iff] using h2)]
    cases hg : gen (search_prompt q um) with
    | none => rfl
    | some t =>
      dsimp only
      rw [h3 t hg]
  · cases um with
    | nil => exact absurd rfl h2
    | cons a l => simp

/-- C5 witness: a raising generation call on a store of two facts
returns both of them (the first `min 3 2` in order). -/
theorem claim_C5_witness :
    search_memories genC5W bankC5W ("u".data) ("q".data)
      = (Json.arr (umC5W.take 3), bankC5W) ∧
    (umC5W.take 3).length = min 3 umC5W.length ∧ umC5W.take 3 ≠ [] :=
  claim_C5 genC5W bankC5W ("u".data) ("q".data) umC5W rfl
    (by intro h; simp [umC5W] at h)
    (fun _ ht => Option.noConfusion ht)

/-- C6, counterexample: `add_session_message` called with the empty user
id stores the turn under the empty key instead of rejecting it — the
method performs no validation at all. -/
theorem claim_C6_counterexample :
    (dget? [] (add_session_message bankC6 [] ("s".data) ("user".data)
      ("hi".data) ("t".data)).sessions).getD []
      = [⟨"s".data, "user".data, "hi".data, "t".data⟩] :=
  rfl

/-- C6, amended: `add_session_message` performs no validation: for every
user id, including the empty string, it appends exactly one turn to that
user's turn list (creating the user implicitly), leaves every other
user's turns unchanged, and does not touch the fact store. -/
theorem claim_C6_amended (bank : SimpleMemoryBank)
    (uid sid role content now : List Char) :
    (dget? uid (add_session_message bank uid sid role content now).sessions).getD []
      = (dget? uid bank.sessions).getD [] ++ [⟨sid, role, content, now⟩] ∧
    (add_session_message bank uid sid role content now).memories = bank.memories ∧
    ∀ u', u' ≠ uid → dget? u' (add_session_message bank uid sid role content now).sessions
      = dget? u' bank.sessions := by
  refine ⟨?_, rfl, ?_⟩
  · unfold add_session_message
    simp [dget?_dset_self]
  · intro u' hu
    unfold add_session_message
    simp [dget?_dset_ne _ _ _ _ hu]

/-- C6 witness: the append under the empty user id, and the untouched
turn list of another user. -/
theorem claim_C6_witness :
    (dget? [] (add_session_message bankC6W [] ("s".data) ("user".data)
      ("hi".data) ("t".data)).sessions).getD []
      = (dget? [] bankC6W.sessions).getD [] ++ [⟨"s".data, "user".data, "hi".data, "t".data⟩] ∧
    dget? ("v".data) (add_session_message bankC6W [] ("s".data) ("user".data)
      ("hi".data) ("t".data)).sessions = dget? ("v".data) bankC6W.sessions :=
  ⟨(claim_C6_amended bankC6W [] ("s".data) ("user".data) ("hi".data) ("t".data)).1,
   (claim_C6_amended bankC6W [] ("s".data) ("user".data) ("hi".data) ("t".data)).2.2
     ("v".data) (by decide)⟩

/-- C7, counterexample: the content `["x```y"]` is valid JSON, but after
fence wrapping the replace-based stripping also deletes the triple
backtick inside the string, so parsing succeeds with a different value
(`["xy"]`) — the claim that parsing yields the same value as the
unfenced content is false. -/
theorem claim_C7_counterexample :
    Option.map first_str (json_loads contentC7) = some ("x```y".data) ∧
    Option.map first_str (json_loads (strip_code_fence (trimL fencedC7)))
      = some ("xy".data) ∧
    json_loads (strip_code_fence (trimL fencedC7)) ≠ json_loads contentC7 := by
  refine ⟨rfl, rfl, ?_⟩
  intro h
  have h2 := congrArg (Option.map first_str) h
  rw [show Option.map first_str (json_loads (strip_code_fence (trimL fencedC7)))
      = some ("xy".data) from rfl] at h2
  rw [show Option.map first_str (json_loads contentC7)
      = some ("x```y".data) from rfl] at h2
  exact absurd h2 (by decide)

/-- C7, amended: for every fenced content containing no triple backtick,
the stripping performed by both methods recovers exactly the stripped
content — the same `strip()` both methods apply to every output before
parsing, so the fenced and unfenced outputs are processed to the same
text, and whenever that content is valid structured data both parses
succeed with the same value. -/
theorem claim_C7_amended (s : List Char)
    (hns : hasSub ("```".data) s = false) :
    strip_code_fence (trimL (("```json\n".data) ++ s ++ ("\n```".data))) = trimL s ∧
    strip_code_fence (trimL s) = trimL s ∧
    ∀ v, json_loads (trimL s) = some v →
      json_loads (strip_code_fence (trimL (("```json\n".data) ++ s ++ ("\n```".data)))) = some v ∧
      json_loads (strip_code_fence (trimL s)) = some v := by
  refine ⟨strip_code_fence_wrapped s hns, strip_code_fence_of_no_fence s hns, ?_⟩
  intro v hv
  rw [strip_code_fence_wrapped s hns, strip_code_fence_of_no_fence s hns]
  exact ⟨hv, hv⟩

/-- C7 witness: whitespace-padded content — the fenced text around
`  [1]  ` parses to the same one-element array as the unfenced output. -/
theorem claim_C7_witness :
    strip_code_fence (trimL (("```json\n".data) ++ ("  [1]  ".data) ++ ("\n```".data)))
      = trimL ("  [1]  ".data) ∧
    json_loads (strip_code_fence (trimL (("```json\n".data) ++ ("  [1]  ".data) ++ ("\n```".data))))
      = some (Json.arr [Json.num 1]) ∧
    json_loads (strip_code_fence (trimL ("  [1]  ".data))) = some (Json.arr [Json.num 1]) :=
  ⟨(claim_C7_amended ("  [1]  ".data) (by decide)).1,
   ((claim_C7_amended ("  [1]  ".data) (by decide)).2.2 (Json.arr [Json.num 1]) rfl).1,
   ((claim_C7_amended ("  [1]  ".data) (by decide)).2.2 (Json.arr [Json.num 1]) rfl).2⟩

/-- C8: for a session with zero matching turns (unknown users included),
`extract_memories` returns the empty list and the unchanged bank, for
every generation oracle — the universally quantified oracle shows the
generation call is never consulted. -/
theorem claim_C8 (gen : List Char → Option (List Char)) (bank : SimpleMemoryBank)
    (u sid now : List Char) (h : session_turns bank u sid = []) :
    extract_memories gen bank u sid now = (Json.arr [], bank) := by
  unfold extract_memories
  split
  · rfl
  · simp [h]

/-- C8 witness: a user whose only turn belongs to another session, with
an oracle that would answer parseable JSON: extraction still returns the
empty list and the untouched bank. -/
theorem claim_C8_witness :
    extract_memories genC8W bankC8W ("u".data) ("s2".data) ("t1".data)
      = (Json.arr [], bankC8W) :=
  claim_C8 genC8W bankC8W ("u".data) ("s2".data) ("t1".data) rfl

/-- C9: `search_memories` is read-only — on every path (empty store,
well-formed output, malformed output, raising generation call) the bank,
both its memories map and its sessions map, is returned unchanged. -/
theorem claim_C9 (gen : List Char → Option (List Char)) (bank : SimpleMemoryBank)
    (user_id query : List Char) :
    (search_memories gen bank user_id query).2 = bank := by
  unfold search_memories
  cases dget? user_id bank.memories with
  | none => rfl
  | some um =>
    dsimp only
    split
    · rfl
    · cases gen (search_prompt query um) with
      | none => rfl
      | some rtext =>
        dsimp only
        cases json_loads (strip_code_fence (trimL rtext)) <;> rfl

/-- C10: extraction performs no shape validation, so the store reaches a
state holding a fact dict without a `fact` key (shown by a concrete run
from the empty bank); for every state whose stored facts are dicts — an
invariant of all reachable states, established for the empty bank and
preserved by every operation — `get_memory_summary` raises `KeyError`
whenever some stored fact of the queried user lacks the `fact` key; and
conversely the summary returns text whenever every stored fact of the
user is a dict with a `fact` key. -/
theorem claim_C10 :
    (get_memory_summary
        (extract_memories genC10 bankC10 ("u".data) ("s1".data) ("t1".data)).2 ("u".data)
        = Except.error PyErr.keyError ∧
      (extract_memories genC10 bankC10 ("u".data) ("s1".data) ("t1".data)).2.memories
        = [("u".data, [Json.obj fieldsC10])] ∧
      dget? ("fact".data) fieldsC10 = none) ∧
    (∀ (bank : SimpleMemoryBank) (u : List Char), all_facts_are_dicts bank →
      (∃ m ∈ (dget? u bank.memories).getD [],
        ∃ fs, m = Json.obj fs ∧ dget? ("fact".data) fs = none) →
      get_memory_summary bank u = Except.error PyErr.keyError) ∧
    (all_facts_are_dicts ⟨[], []⟩ ∧
      (∀ (bank : SimpleMemoryBank) (uid sid role content now : List Char),
        all_facts_are_dicts bank →
        all_facts_are_dicts (add_session_message bank uid sid role content now)) ∧
      (∀ (gen : List Char → Option (List Char)) (bank : SimpleMemoryBank) (u sid now : List Char),
        all_facts_are_dicts bank →
        all_facts_are_dicts (extract_memories gen bank u sid now).2) ∧
      (∀ (gen : List Char → Option (List Char)) (bank : SimpleMemoryBank) (u q : List Char),
        all_facts_are_dicts bank →
        all_facts_are_dicts (search_memories gen bank u q).2)) ∧
    (∀ (bank : SimpleMemoryBank) (u : List Char),
      (∀ m ∈ (dget? u bank.memories).getD [],
        ∃ fs, m = Json.obj fs ∧ (dget? ("fact".data) fs).isSome = true) →
      ∃ s, get_memory_summary bank u = Except.ok s) :=
  ⟨⟨rfl, rfl, rfl⟩,
   get_memory_summary_keyError,
   ⟨by intro u m hm; simp [dget?] at hm,
    fun bank uid sid role content now h => h,
    extract_memories_all_dicts,
    fun gen bank u q h => by rw [search_memories_bank_eq gen bank u q]; exact h⟩,
   get_memory_summary_total⟩

/-- C10 witness: the universal KeyError statement applied to the state
reached by the concrete extraction run (its invariant obtained through
the preservation chain from the empty bank), and the totality statement
applied to a store whose single fact has a `fact` key. -/
theorem claim_C10_witness :
    get_memory_summary
      (extract_memories genC10 bankC10 ("u".data) ("s1".data) ("t1".data)).2 ("u".data)
      = Except.error PyErr.keyError ∧
    (∃ s, get_memory_summary bankC10W ("u".data) = Except.ok s) := by
  constructor
  · apply claim_C10.2.1
    · exact claim_C10.2.2.1.2.2.1 genC10 bankC10 ("u".data) ("s1".data) ("t1".data)
        (claim_C10.2.2.1.2.1 ⟨[], []⟩ ("u".data) ("s1".data) ("user".data) ("hi".data)
          ("t0".data) claim_C10.2.2.1.1)
    · exact ⟨Json.obj fieldsC10, List.mem_singleton.mpr rfl, fieldsC10, rfl, rfl⟩
  · exact claim_C10.2.2.2 bankC10W ("u".data) (by
      intro m hm
      rw [show (dget? ("u".data) bankC10W.memories).getD []
          = [Json.obj [("fact".data, Json.str ("a".data))]] from rfl] at hm
      rw [List.mem_singleton] at hm
      subst hm
      exact ⟨_, rfl, rfl⟩)
